import Mathlib

/-
Verification of the mobilithek-to-csv decode-sniff-extract pipeline
(`app.js`).  Byte buffers (`Uint8Array`) are modelled as `List Nat` whose
elements are < 256; browser built-ins that are not part of the repository
(DOMParser, DecompressionStream) are modelled as explicit oracle
parameters, while `atob`/`btoa`/`TextDecoder` are given concrete
executable models.
-/

/- JavaScript's `\s` character class (also the set used by `trim` /
`trimStart`): ASCII whitespace, NBSP, Ogham space, the U+2000..U+200A
range, LS, PS, NNBSP, MMSP, ideographic space and the BOM. -/
def isJsWhitespace (c : Char) : Bool :=
  c = ' ' || c = '\t' || c = '\n' || c = '\r' ||
  c = Char.ofNat 0x0b || c = Char.ofNat 0x0c ||
  c = Char.ofNat 0xa0 || c = Char.ofNat 0x1680 ||
  (0x2000 ≤ c.toNat && c.toNat ≤ 0x200a) ||
  c = Char.ofNat 0x2028 || c = Char.ofNat 0x2029 ||
  c = Char.ofNat 0x202f || c = Char.ofNat 0x205f ||
  c = Char.ofNat 0x3000 || c = Char.ofNat 0xfeff

-- JS `String.prototype.trim` (both ends).
def trimJs (s : String) : String :=
  String.mk (((s.toList.dropWhile isJsWhitespace).reverse.dropWhile isJsWhitespace).reverse)

-- `str.trim().replace(/\s+/g, "")`: removing every whitespace character.
def stripWs (s : String) : String :=
  String.mk (s.toList.filter (fun c => !isJsWhitespace c))

-- `pat` is a leading run of `l` (char-level `startsWith`).
def leadsWith : List Char → List Char → Bool
  | [], _ => true
  | _ :: _, [] => false
  | p :: ps, c :: cs => p = c && leadsWith ps cs

-- JS `String.prototype.startsWith`.
def strStarts (s pat : String) : Bool := leadsWith pat.toList s.toList

-- JS `String.prototype.includes` for a string pattern.
def charListContains : List Char → List Char → Bool
  | [], pat => leadsWith pat []
  | c :: t, pat => leadsWith pat (c :: t) || charListContains t pat

def strContains (s pat : String) : Bool := charListContains s.toList pat.toList

-- JS sorts strings by comparing code units; on the BMP this is the
-- code-point lexicographic order implemented here.
def charListLe : List Char → List Char → Bool
  | [], _ => true
  | _ :: _, [] => false
  | a :: as, b :: bs =>
    if a.toNat < b.toNat then true
    else if b.toNat < a.toNat then false
    else charListLe as bs

def strLe (a b : String) : Bool := charListLe a.toList b.toList

-- `Array.prototype.sort()` with the default (string) comparator.
def sortStrings (l : List String) : List String :=
  List.insertionSort (fun a b => strLe a b = true) l

/- Model of `TextDecoder("utf-8", { fatal: false })`: lossy UTF-8
decoding, one U+FFFD per rejected lead byte.  The exact number of
replacement characters emitted for a malformed multi-byte tail does not
matter for any property proved below; the decoder agrees with the
browser's on well-formed input.  The fuel argument (initially the byte
count) only serves totality: every step consumes at least one byte. -/
def utf8Repl : Char := Char.ofNat 0xfffd

def isUtf8Cont (b : Nat) : Bool := 0x80 ≤ b && b ≤ 0xbf

def utf8Second3 (b b1 : Nat) : Bool :=
  if b = 0xe0 then 0xa0 ≤ b1 && b1 ≤ 0xbf
  else if b = 0xed then 0x80 ≤ b1 && b1 ≤ 0x9f
  else isUtf8Cont b1

def utf8Second4 (b b1 : Nat) : Bool :=
  if b = 0xf0 then 0x90 ≤ b1 && b1 ≤ 0xbf
  else if b = 0xf4 then 0x80 ≤ b1 && b1 ≤ 0x8f
  else isUtf8Cont b1

def utf8Go : Nat → List Nat → List Char
  | 0, _ => []
  | _, [] => []
  | fuel + 1, b :: rest =>
    if b < 0x80 then Char.ofNat b :: utf8Go fuel rest
    else if 0xc2 ≤ b && b ≤ 0xdf then
      match rest with
      | [] => [utf8Repl]
      | b1 :: rest1 =>
        if isUtf8Cont b1 then
          Char.ofNat ((b - 0xc0) * 0x40 + (b1 - 0x80)) :: utf8Go fuel rest1
        else utf8Repl :: utf8Go fuel rest
    else if 0xe0 ≤ b && b ≤ 0xef then
      match rest with
      | [] => [utf8Repl]
      | [b1] =>
        if utf8Second3 b b1 then [utf8Repl] else utf8Repl :: utf8Go fuel [b1]
      | b1 :: b2 :: rest2 =>
        if utf8Second3 b b1 && isUtf8Cont b2 then
          Char.ofNat ((b - 0xe0) * 0x1000 + (b1 - 0x80) * 0x40 + (b2 - 0x80)) :: utf8Go fuel rest2
        else utf8Repl :: utf8Go fuel rest
    else if 0xf0 ≤ b && b ≤ 0xf4 then
      match rest with
      | [] => [utf8Repl]
      | [b1] =>
        if utf8Second4 b b1 then [utf8Repl] else utf8Repl :: utf8Go fuel [b1]
      | [b1, b2] =>
        if utf8Second4 b b1 && isUtf8Cont b2 then [utf8Repl]
        else utf8Repl :: utf8Go fuel [b1, b2]
      | b1 :: b2 :: b3 :: rest3 =>
        if utf8Second4 b b1 && isUtf8Cont b2 && isUtf8Cont b3 then
          Char.ofNat ((b - 0xf0) * 0x40000 + (b1 - 0x80) * 0x1000 +
            (b2 - 0x80) * 0x40 + (b3 - 0x80)) :: utf8Go fuel rest3
        else utf8Repl :: utf8Go fuel rest
    else utf8Repl :: utf8Go fuel rest

def utf8DecodeChars (bytes : List Nat) : List Char := utf8Go bytes.length bytes

def utf8Decode (bytes : List Nat) : String := String.mk (utf8DecodeChars bytes)

/- ### Byte Sniffer (`looksGzip`, `looksZip`, `looksLikeText`,
`describeBytes`, `bytesToHex`, `makePreview`) -/

-- `bytes.length >= 2 && bytes[0] === 0x1f && bytes[1] === 0x8b`.
def looksGzip : List Nat → Bool
  | b0 :: b1 :: _ => b0 = 0x1f && b1 = 0x8b
  | _ => false

-- `bytes.length >= 4 && bytes[0..3] === 50 4b 03 04`.
def looksZip : List Nat → Bool
  | b0 :: b1 :: b2 :: b3 :: _ => b0 = 0x50 && b1 = 0x4b && b2 = 0x03 && b3 = 0x04
  | _ => false

-- Bytes counted as control-ish by `looksLikeText`:
-- `b < 0x09`, or `0x0d < b < 0x20`.
def controlishCount (l : List Nat) : Nat :=
  l.countP (fun b => b < 0x09 || (0x0d < b && b < 0x20))

/- `looksLikeText`: sample the first 2048 bytes; empty sample or any
NUL byte means "not text" (the source returns `false` from inside the
loop on a NUL, which is the same as checking membership first); finally
`controlish / sample.length < 0.05`.  For a sample of at most 2048
bytes the IEEE-double comparison coincides with the exact rational
comparison `20 * controlish < sample.length`: whenever the two sides
are not exactly equal they differ by at least `1/(20*2048)`, far above
double rounding error, and when they are exactly equal both comparisons
are false. -/
def looksLikeText (bytes : List Nat) : Bool :=
  let sample := bytes.take 2048
  if sample.length = 0 then false
  else if sample.contains 0 then false
  else decide (20 * controlishCount sample < sample.length)

structure ContentDescriptor where
  ext : String
  mime : String
  isText : Bool
deriving DecidableEq

def describeBytes (bytes : List Nat) : ContentDescriptor :=
  if looksGzip bytes then ⟨"gz", "application/gzip", false⟩
  else if looksZip bytes then ⟨"zip", "application/zip", false⟩
  else if !looksLikeText bytes then ⟨"bin", "application/octet-stream", false⟩
  else
    let text := (utf8DecodeChars (bytes.take (64 * 1024))).dropWhile isJsWhitespace
    if leadsWith "<?xml".toList text || leadsWith "<".toList text then
      ⟨"xml", "application/xml", true⟩
    else if text.contains '\n' && (text.contains ',' || text.contains ';') then
      ⟨"csv", "text/csv", true⟩
    else ⟨"txt", "text/plain", true⟩

def hexDigit (n : Nat) : Char :=
  if n < 10 then Char.ofNat (48 + n) else Char.ofNat (87 + n)

-- `b.toString(16).padStart(2, "0")` for a byte value.
def hexByte (b : Nat) : List Char := [hexDigit (b / 16 % 16), hexDigit (b % 16)]

def bytesToHex (bytes : List Nat) (max : Nat) : String :=
  String.mk ((bytes.take (min bytes.length max)).flatMap hexByte)

/- `makePreview`.  JS `text.length` / `slice` count UTF-16 units; this
model counts characters, which agrees for payloads without
supplementary-plane characters. -/
def makePreview (bytes : List Nat) : String :=
  let info := describeBytes bytes
  if !info.isText then
    "Binary preview (hex): " ++ bytesToHex bytes 64 ++ (if bytes.length > 64 then "…" else "")
  else
    let text := utf8Decode (bytes.take (48 * 1024))
    if text.length > 4000 then (String.mk (text.toList.take 4000)) ++ "\n…" else text

/- ### Base64 Decoder / encoder (`base64ToBytes`, `bytesToBase64`) -/

def b64Alphabet : List Char :=
  "ABCDEFGHIJKLMNOPQRSTUVWXYZabcdefghijklmnopqrstuvwxyz0123456789+/".toList

def charIdx (c : Char) : List Char → Option Nat
  | [] => none
  | a :: as => if a = c then some 0 else (charIdx c as).map (· + 1)

def sextetToChar (n : Nat) : Char := b64Alphabet.getD n 'A'

def charToSextet (c : Char) : Option Nat := charIdx c b64Alphabet

/- `bytesToBase64`: the source converts the bytes to a latin-1 binary
string in chunks of 0x8000 code units and feeds the concatenation to
`btoa`; the result is exactly the standard padded base64 encoding of the
byte sequence, produced here three bytes at a time. -/
def encodeB64 : List Nat → List Char
  | [] => []
  | [b0] => [sextetToChar (b0 / 4), sextetToChar (b0 % 4 * 16), '=', '=']
  | [b0, b1] =>
    [sextetToChar (b0 / 4), sextetToChar (b0 % 4 * 16 + b1 / 16),
     sextetToChar (b1 % 16 * 4), '=']
  | b0 :: b1 :: b2 :: rest =>
    sextetToChar (b0 / 4) :: sextetToChar (b0 % 4 * 16 + b1 / 16) ::
    sextetToChar (b1 % 16 * 4 + b2 / 64) :: sextetToChar (b2 % 64) :: encodeB64 rest

def bytesToBase64 (bytes : List Nat) : String := String.mk (encodeB64 bytes)

-- `.replace(/\s+/g, "").replace(/-/g, "+").replace(/_/g, "/")`.
def normalizeB64Chars (s : List Char) : List Char :=
  (s.filter (fun c => !isJsWhitespace c)).map
    (fun c => if c = '-' then '+' else if c = '_' then '/' else c)

-- Pad with `=` to a multiple of 4.
def padB64 (s : List Char) : List Char :=
  if s.length % 4 = 0 then s else s ++ List.replicate (4 - s.length % 4) '='

/- `atob` on a string of complete quads, decoded quad by quad; `=` is
accepted only as final padding.  The source decodes in chunks whose
length is a multiple of 4 and concatenates, which decodes the very same
quads in the same order. -/
def decodeB64Quads : List Char → Option (List Nat)
  | [] => some []
  | a :: b :: c :: d :: rest =>
    match charToSextet a, charToSextet b with
    | some s0, some s1 =>
      if c = '=' then
        if d = '=' && rest.isEmpty then some [s0 * 4 + s1 / 16] else none
      else
        match charToSextet c with
        | some s2 =>
          if d = '=' then
            if rest.isEmpty then some [s0 * 4 + s1 / 16, s1 % 16 * 16 + s2 / 4] else none
          else
            match charToSextet d with
            | some s3 =>
              (decodeB64Quads rest).map
                (fun t => (s0 * 4 + s1 / 16) :: (s1 % 16 * 16 + s2 / 4) :: (s2 % 4 * 64 + s3) :: t)
            | none => none
        | none => none
    | _, _ => none
  | _ => none

def base64ToBytes (s : String) : Option (List Nat) :=
  let n := normalizeB64Chars s.toList
  if n.isEmpty then some [] else decodeB64Quads (padB64 n)

/- ### CSV Export Formatters (`csvEscape`, `rowsToCsv`) -/

-- `'"'` doubled inside a quoted field.
def doubleQuotes : List Char → List Char
  | [] => []
  | c :: cs => if c = '"' then '"' :: '"' :: doubleQuotes cs else c :: doubleQuotes cs

-- The test `/[",\r\n]/.test(str)`.
def csvNeedsQuote (s : String) : Bool :=
  s.toList.any (fun c => c = '"' || c = ',' || c = '\r' || c = '\n')

/- `csvEscape`: `null`/`undefined` become the empty string (modelled by
`Option.getD`); any other value is already a string in every call site. -/
def csvEscape (value : Option String) : String :=
  let str := value.getD ""
  if csvNeedsQuote str then "\"" ++ String.mk (doubleQuotes str.toList) ++ "\"" else str

/- `rowsToCsv`: one header line followed by one line per row; the source
accumulates the lines in an array before joining with CRLF and appending
a final CRLF. -/
def rowsToCsv (rows : List (String → Option String)) (columns : List String) : String :=
  let header := String.intercalate "," (columns.map (fun c => csvEscape (some c)))
  let lines := rows.foldl
    (fun acc row => acc ++ [String.intercalate "," (columns.map (fun c => csvEscape (row c)))])
    [header]
  String.intercalate "\r\n" lines ++ "\r\n"

/- ### XML document model

A parsed DOM is modelled as a tree of element and text nodes.  Element
names are local names (the source always matches with
`getElementsByTagNameNS("*", …)` / `localName`, i.e. ignoring the
namespace); attributes are keyed by their qualified name as written
(which is how `getAttribute("xsi:type")` looks them up). -/
inductive XNode where
  | elem (name : String) (attrs : List (String × String)) (children : List XNode)
  | txt (s : String)

def XNode.isElem : XNode → Bool
  | .elem .. => true
  | .txt _ => false

def XNode.nodeName : XNode → String
  | .elem n _ _ => n
  | .txt _ => ""

-- `getAttribute` (null when absent).
def XNode.getAttr : XNode → String → Option String
  | .elem _ attrs _, key => (attrs.find? (fun a => a.1 = key)).map Prod.snd
  | .txt _, _ => none

mutual
def XNode.textContent : XNode → String
  | .txt s => s
  | .elem _ _ cs => XNode.textContentList cs
def XNode.textContentList : List XNode → String
  | [] => ""
  | c :: cs => XNode.textContent c ++ XNode.textContentList cs
end

mutual
-- Strict descendant elements in document (pre-)order.
def XNode.descendantElems : XNode → List XNode
  | .txt _ => []
  | .elem _ _ cs => XNode.descendantElemsList cs
def XNode.descendantElemsList : List XNode → List XNode
  | [] => []
  | c :: cs =>
    (match c with
     | .elem n a k => XNode.elem n a k :: XNode.descendantElems (.elem n a k)
     | .txt _ => []) ++ XNode.descendantElemsList cs
end

-- `el.getElementsByTagNameNS("*", name)`: strict descendants only.
def XNode.elemsWithin (el : XNode) (name : String) : List XNode :=
  el.descendantElems.filter (fun e => e.nodeName = name)

-- `doc.getElementsByTagNameNS("*", name)`: every element of the
-- document, the root element included.
def docElemsNamed (root : XNode) (name : String) : List XNode :=
  (root :: root.descendantElems).filter (fun e => e.nodeName = name)

-- `el.children`: direct element children.
def XNode.elemChildren : XNode → List XNode
  | .elem _ _ cs => cs.filter XNode.isElem
  | .txt _ => []

-- `getText`: `textContent` trimmed, empty for a missing element.
def getTextOf : Option XNode → String
  | some el => trimJs el.textContent
  | none => ""

-- `a || b` for strings (empty string is falsy).
def stringOr (a b : String) : String := if a = "" then b else a

/- ### Binary Extractor (`extractBinaryItems`)

`DOMParser.parseFromString` is a browser built-in; it is modelled as an
oracle `parse : String → Option XNode` returning the document root, with
`none` standing for a `<parsererror>` document. -/
structure RawBin where
  index : Nat
  id : String
  type : String
  base64 : String
deriving DecidableEq

def extractBinaryItems (parse : String → Option XNode) (xmlText : String) :
    Except String (List RawBin) :=
  match parse xmlText with
  | none => .error "Invalid XML (parser error)."
  | some doc =>
    .ok ((docElemsNamed doc "binary").enum.map (fun p =>
      { index := p.1
        id := stringOr ((p.2.getAttr "id").getD "") s!"binary-{p.1 + 1}"
        type := stringOr ((p.2.getAttr "type").getD "") "binary"
        base64 := stripWs p.2.textContent }))

/- ### Record Extractor (`extractFuelPricePublication`) -/

structure FuelPriceRow where
  station_id : String
  station_version : String
  fuel : String
  price : String
  date_of_price : String
  publication_id : String
  publication_type : String
  binary_id : String
deriving DecidableEq

structure OverridePeriodRow where
  station_id : String
  station_version : String
  start_of_period : String
  end_of_period : String
  publication_id : String
  publication_type : String
  binary_id : String
deriving DecidableEq

def rootExtensionName (doc : XNode) : String := (doc.getAttr "extensionName").getD ""

def isFuelPriceDoc (doc : XNode) : Bool :=
  rootExtensionName doc = "FuelPricePublication" ||
  (docElemsNamed doc "payloadPublication").any
    (fun p => strContains ((p.getAttr "xsi:type").getD "") "FuelPricePublication")

def fuelPriceRowsOfInfo (doc payload info : XNode) (binaryId : String) : List FuelPriceRow :=
  let stationRef := (info.elemsWithin "petrolStationReference").head?
  let stationId := (stationRef.bind (fun r => r.getAttr "id")).getD ""
  let stationVersion := (stationRef.bind (fun r => r.getAttr "version")).getD ""
  info.elemChildren.filterMap (fun child =>
    let localN := child.nodeName
    if strStarts localN "fuelPrice" then
      let fuel := stringOr (localN.drop 9) "Unknown"
      let price := getTextOf (child.elemsWithin "price").head?
      let dateOfPrice := getTextOf (child.elemsWithin "dateOfPrice").head?
      if price = "" ∧ dateOfPrice = "" then none
      else some
        { station_id := stationId
          station_version := stationVersion
          fuel := fuel
          price := price
          date_of_price := dateOfPrice
          publication_id := (payload.getAttr "id").getD ""
          publication_type := stringOr ((payload.getAttr "xsi:type").getD "") (rootExtensionName doc)
          binary_id := binaryId }
    else none)

def overrideRowsOfInfo (doc payload info : XNode) (binaryId : String) : List OverridePeriodRow :=
  let stationRef := (info.elemsWithin "petrolStationReference").head?
  let stationId := (stationRef.bind (fun r => r.getAttr "id")).getD ""
  let stationVersion := (stationRef.bind (fun r => r.getAttr "version")).getD ""
  (info.elemsWithin "overrideOpen").filterMap (fun ov =>
    let startOfPeriod := getTextOf (ov.elemsWithin "startOfPeriod").head?
    let endOfPeriod := getTextOf (ov.elemsWithin "endOfPeriod").head?
    if startOfPeriod = "" ∧ endOfPeriod = "" then none
    else some
      { station_id := stationId
        station_version := stationVersion
        start_of_period := startOfPeriod
        end_of_period := endOfPeriod
        publication_id := (payload.getAttr "id").getD ""
        publication_type := stringOr ((payload.getAttr "xsi:type").getD "") (rootExtensionName doc)
        binary_id := binaryId })

def extractFuelPricePublication (doc : XNode) (binaryId : String) :
    Option (List FuelPriceRow × List OverridePeriodRow) :=
  if !isFuelPriceDoc doc then none
  else some
    ((docElemsNamed doc "payloadPublication").flatMap (fun payload =>
       (payload.elemsWithin "petrolStationInformation").flatMap (fun info =>
         fuelPriceRowsOfInfo doc payload info binaryId)),
     (docElemsNamed doc "payloadPublication").flatMap (fun payload =>
       (payload.elemsWithin "petrolStationInformation").flatMap (fun info =>
         overrideRowsOfInfo doc payload info binaryId)))

/- ### Pivot (`groupBy`, `wideFuelRowsForStation`)

JS objects and `Map`s are modelled as association lists that preserve
insertion order: updating an existing key keeps its position, a new key
is appended. -/
def addToGroup {α : Type} : List (String × List α) → String → α → List (String × List α)
  | [], k, r => [(k, [r])]
  | (k', l) :: rest, k, r =>
    if k' = k then (k', l ++ [r]) :: rest else (k', l) :: addToGroup rest k r

def groupBy {α : Type} (key : α → String) (rows : List α) : List (String × List α) :=
  rows.foldl (fun m r => addToGroup m (key r) r) []

def mapGet {α : Type} : List (String × List α) → String → Option (List α)
  | [], _ => none
  | (k', l) :: rest, k => if k' = k then some l else mapGet rest k

-- JS object property assignment.
def setField (row : List (String × String)) (k v : String) : List (String × String) :=
  match row with
  | [] => [(k, v)]
  | (k', v') :: rest => if k' = k then (k, v) :: rest else (k', v') :: setField rest k v

-- JS object property read (`undefined` when absent).
def getField : List (String × String) → String → Option String
  | [], _ => none
  | (k', v) :: rest, k => if k' = k then some v else getField rest k

-- `Array.from(new Set(l))`: deduplication keeping first occurrences.
def dedupFirstAux : List String → List String → List String
  | [], _ => []
  | x :: xs, seen =>
    if x ∈ seen then dedupFirstAux xs seen else x :: dedupFirstAux xs (x :: seen)

def dedupFirst (l : List String) : List String := dedupFirstAux l []

-- The loop body of `wideFuelRowsForStation`: build the pivot row of one
-- date (`{date_of_price: date}`, a blank cell per fuel column, then the
-- price of every row of that date's group, later assignments winning).
def wideRowForDate (fuels : List String) (byDate : List (String × List FuelPriceRow))
    (date : String) : List (String × String) :=
  ((mapGet byDate date).getD []).foldl (fun row r => setField row r.fuel r.price)
    (fuels.foldl (fun row f => setField row f "") [("date_of_price", date)])

def wideFuelRowsForStation (rows : List FuelPriceRow) :
    List String × List (List (String × String)) :=
  let fuels := sortStrings ((dedupFirst (rows.map (fun r => r.fuel))).filter (fun f => f ≠ ""))
  let byDate := groupBy (fun r => r.date_of_price) rows
  let dates := sortStrings ((byDate.map Prod.fst).filter (fun d => d ≠ ""))
  (fuels, dates.map (wideRowForDate fuels byDate))

-- Spec-side description of a wide-table cell: the price of the last
-- input row with the given date and fuel, or the empty string.
def lastPriceSpec (rows : List FuelPriceRow) (d f : String) : String :=
  match ((rows.filter (fun r => r.date_of_price = d)).filter (fun r => r.fuel = f)).getLast? with
  | some r => r.price
  | none => ""

/- ### Decode Orchestrator (`decodeXmlToItems`)

`gunzipBytes` drives `DecompressionStream("gzip")`, a browser built-in;
the attempt on a gzip-signature input is modelled as an oracle
`GunzipOracle` whose `.error` case covers both a missing
`DecompressionStream` and a corrupt stream (the two `throw` paths). -/
def GunzipOracle : Type := List Nat → Except String (List Nat)

structure DecodedItem where
  index : Nat
  id : String
  type : String
  base64 : String
  error : Option String
  wasGunzipped : Bool
  rawBytes : Option (List Nat)
  rawInfo : Option ContentDescriptor
  decodedBytes : Option (List Nat)
  decodedInfo : Option ContentDescriptor
  rawFilename : Option String
  decodedFilename : Option String
  gunzipError : Option String
  preview : Option String
deriving DecidableEq

-- `out.push({ ...bin, error })`: no byte, info, filename or preview
-- fields are present on such an item (`wasGunzipped` is absent, which
-- every consumer coerces to `false`).
def errorItem (bin : RawBin) (msg : String) : DecodedItem :=
  { index := bin.index, id := bin.id, type := bin.type, base64 := bin.base64
    error := some msg, wasGunzipped := false
    rawBytes := none, rawInfo := none, decodedBytes := none, decodedInfo := none
    rawFilename := none, decodedFilename := none, gunzipError := none, preview := none }

-- The character class `[a-zA-Z0-9._-]` of `safeFileName`.
def isSafeFileChar (c : Char) : Bool :=
  ('a' ≤ c && c ≤ 'z') || ('A' ≤ c && c ≤ 'Z') || ('0' ≤ c && c ≤ '9') ||
  c = '.' || c = '_' || c = '-'

-- `replace(/[^a-zA-Z0-9._-]+/g, "_")`: each run of disallowed
-- characters becomes a single underscore (the flag tracks being inside
-- such a run).
def collapseUnsafeGo : Bool → List Char → List Char
  | _, [] => []
  | inRun, c :: cs =>
    if isSafeFileChar c then c :: collapseUnsafeGo false cs
    else if inRun then collapseUnsafeGo true cs
    else '_' :: collapseUnsafeGo true cs

def collapseUnsafe (l : List Char) : List Char := collapseUnsafeGo false l

def safeFileName (value : String) : String :=
  let base := stringOr (trimJs (stringOr value "file")) "file"
  let collapsed := collapseUnsafe base.toList
  let trimmed := (collapsed.dropWhile (fun c => c = '_')).reverse.dropWhile (fun c => c = '_')
  stringOr (String.mk (trimmed.reverse.take 180)) "file"

/- One loop iteration of `decodeXmlToItems`.  The `catch` around steps
2-5 can only fire on a malformed base64 text (`atob` throwing); the
browser's exception message is platform dependent, so the fallback text
of the handler is used for it. -/
def decodeOneBin (g : GunzipOracle) (bin : RawBin) : DecodedItem :=
  if bin.base64 = "" then errorItem bin "Empty <binary> content."
  else
    match base64ToBytes bin.base64 with
    | none => errorItem bin "Failed to decode."
    | some rawBytes =>
      let rawInfo := describeBytes rawBytes
      let gz : Option (List Nat) × Option String :=
        if looksGzip rawBytes then
          match g rawBytes with
          | .ok b => (some b, none)
          | .error m => (none, some (if m = "" then "Failed to gunzip." else m))
        else (none, none)
      let decodedBytes := gz.1.getD rawBytes
      let decodedInfo := describeBytes decodedBytes
      let baseName := safeFileName (bin.id ++ "_" ++ bin.type)
      { index := bin.index, id := bin.id, type := bin.type, base64 := bin.base64
        error := none
        wasGunzipped := gz.1.isSome
        rawBytes := some rawBytes
        rawInfo := some rawInfo
        decodedBytes := some decodedBytes
        decodedInfo := some decodedInfo
        rawFilename := some (baseName ++ "." ++ rawInfo.ext)
        decodedFilename := some (baseName ++ "." ++ decodedInfo.ext)
        gunzipError := gz.2
        preview := some (makePreview decodedBytes) }

def decodeXmlToItems (parse : String → Option XNode) (g : GunzipOracle)
    (xmlText : String) : Except String (List DecodedItem) :=
  (extractBinaryItems parse xmlText).map (fun bins => bins.map (decodeOneBin g))

/- ### Export formatters and session state -/

-- Truthiness of an optional string (`undefined`, `null` and `""` are
-- falsy in JS).
def truthyStr : Option String → Bool
  | some s => s ≠ ""
  | none => false

-- `x || null`.
def orNull (o : Option String) : Option String :=
  if truthyStr o then o else none

structure ExportedRawMeta where
  bytes : Nat
  ext : String
  mime : String
deriving DecidableEq

structure ExportedDecodedMeta where
  bytes : Nat
  ext : String
  mime : String
  isText : Bool
deriving DecidableEq

structure ExportedItem where
  id : String
  type : String
  wasGunzipped : Bool
  error : Option String
  gunzipError : Option String
  raw : ExportedRawMeta
  decoded : ExportedDecodedMeta
  preview : String
  decodedText : Option String
  decodedBase64 : Option String
deriving DecidableEq

-- The per-item object built by `downloadDecodedJson`.
def exportJsonItem (it : DecodedItem) : ExportedItem :=
  { id := it.id
    type := it.type
    wasGunzipped := it.wasGunzipped
    error := orNull it.error
    gunzipError := orNull it.gunzipError
    raw :=
      { bytes := (it.rawBytes.getD []).length
        ext := (it.rawInfo.map ContentDescriptor.ext).getD ""
        mime := (it.rawInfo.map ContentDescriptor.mime).getD "" }
    decoded :=
      { bytes := (it.decodedBytes.getD []).length
        ext := (it.decodedInfo.map ContentDescriptor.ext).getD ""
        mime := (it.decodedInfo.map ContentDescriptor.mime).getD ""
        isText := (it.decodedInfo.map ContentDescriptor.isText).getD false }
    preview := (it.preview).getD ""
    decodedText :=
      if !truthyStr it.error && it.decodedBytes.isSome &&
          (it.decodedInfo.map ContentDescriptor.isText).getD false then
        some (utf8Decode (it.decodedBytes.getD []))
      else none
    decodedBase64 :=
      if !truthyStr it.error && it.decodedBytes.isSome &&
          !((it.decodedInfo.map ContentDescriptor.isText).getD false) then
        some (bytesToBase64 (it.decodedBytes.getD []))
      else none }

structure JsonExportDoc where
  generatedAt : String
  responseXmlLength : Nat
  items : List ExportedItem
deriving DecidableEq

def joinStrings : List String → String
  | [] => ""
  | s :: t => s ++ joinStrings t

def escXmlAttrChar (c : Char) : String :=
  if c = '&' then "&amp;"
  else if c = '<' then "&lt;"
  else if c = '>' then "&gt;"
  else if c = '"' then "&quot;"
  else if c = '\'' then "&apos;"
  else String.mk [c]

-- The five sequential `replaceAll`s of `escapeXmlAttr` (`&` first, so
-- they amount to a character-wise substitution).
def escapeXmlAttr (s : String) : String := joinStrings (s.toList.map escXmlAttrChar)

-- `safeCdataText`: `]]>` split into `]]]]><![CDATA[>`.
def cdataEsc : List Char → List Char
  | ']' :: ']' :: '>' :: rest => "]]]]><![CDATA[>".toList ++ cdataEsc rest
  | c :: rest => c :: cdataEsc rest
  | [] => []

def safeCdataText (s : String) : String := String.mk (cdataEsc s.toList)

-- One `<binary …>…</binary>` entry of the XML export.
def xmlEntryForItem (it : DecodedItem) : String :=
  "  <binary id=\"" ++ escapeXmlAttr it.id ++ "\" type=\"" ++ escapeXmlAttr it.type ++
  "\" rawBytes=\"" ++ toString (it.rawBytes.getD []).length ++
  "\" decodedBytes=\"" ++ toString (it.decodedBytes.getD []).length ++
  "\" rawExt=\"" ++ escapeXmlAttr ((it.rawInfo.map ContentDescriptor.ext).getD "") ++
  "\" decodedExt=\"" ++ escapeXmlAttr ((it.decodedInfo.map ContentDescriptor.ext).getD "") ++
  "\" rawMime=\"" ++ escapeXmlAttr ((it.rawInfo.map ContentDescriptor.mime).getD "") ++
  "\" decodedMime=\"" ++ escapeXmlAttr ((it.decodedInfo.map ContentDescriptor.mime).getD "") ++
  "\" wasGunzipped=\"" ++ (if it.wasGunzipped then "true" else "false") ++ "\">\n" ++
  (if truthyStr it.error then
    "    <error><![CDATA[" ++ safeCdataText (it.error.getD "") ++ "]]></error>\n"
   else if truthyStr it.gunzipError then
    "    <gunzipError><![CDATA[" ++ safeCdataText (it.gunzipError.getD "") ++ "]]></gunzipError>\n"
   else "") ++
  (if !truthyStr it.error && it.decodedBytes.isSome &&
      (it.decodedInfo.map ContentDescriptor.isText).getD false then
    "    <decoded><![CDATA[" ++ safeCdataText (utf8Decode (it.decodedBytes.getD [])) ++
    "]]></decoded>\n"
   else if !truthyStr it.error && it.decodedBytes.isSome then
    "    <decodedBase64><![CDATA[" ++ bytesToBase64 (it.decodedBytes.getD []) ++
    "]]></decodedBase64>\n"
   else "") ++
  "  </binary>\n"

/- The module-level session state: the textarea contents plus the
`lastResponseXml` / `lastDecodedItems` pair stored by `decodeAndRender`. -/
structure AppState where
  xmlTextVisible : String
  lastResponseXml : String
  lastDecodedItems : List DecodedItem

def requireDecodedItems (st : AppState) : Option (List DecodedItem) :=
  let currentXml := trimJs st.xmlTextVisible
  if currentXml ≠ "" ∧ st.lastResponseXml ≠ "" ∧ currentXml ≠ st.lastResponseXml then none
  else if st.lastDecodedItems.isEmpty then none
  else some st.lastDecodedItems

-- `downloadDecodedJson` up to the `triggerDownload` side effect: the
-- document it serializes, or `none` when it bails out with an error
-- status.  `now` stands for `new Date().toISOString()`.
def downloadDecodedJson (st : AppState) (now : String) : Option JsonExportDoc :=
  match requireDecodedItems st with
  | none => none
  | some items => some
    { generatedAt := now
      responseXmlLength := st.lastResponseXml.length
      items := items.map exportJsonItem }

-- `downloadDecodedXml` up to the `triggerDownload` side effect.
def downloadDecodedXml (st : AppState) (now : String) : Option String :=
  match requireDecodedItems st with
  | none => none
  | some items => some
    ("<?xml version=\"1.0\" encoding=\"UTF-8\"?>\n" ++
     "<decodedBinaries generatedAt=\"" ++ escapeXmlAttr now ++ "\">\n" ++
     joinStrings (items.map xmlEntryForItem) ++
     "</decodedBinaries>\n")

/- ### Concrete inputs used by the counterexamples and witnesses below -/

-- 20 bytes, exactly one of them control-ish: a 5 percent sample.
def c1Bytes : List Nat := 1 :: List.replicate 19 65

-- A document with a single empty <binary/> element.
def emptyBinParse : String → Option XNode :=
  fun _ => some (XNode.elem "m" [] [XNode.elem "binary" [] []])

def emptyBinGz : GunzipOracle := fun _ => Except.error "nope"

def emptyBinItem : DecodedItem := errorItem ⟨0, "binary-1", "binary", ""⟩ "Empty <binary> content."

-- A document with one binary holding the base64 of the two gzip magic
-- bytes, and a gunzip oracle that always fails.
def gzipDoc : XNode :=
  XNode.elem "m" [] [XNode.elem "binary" [("id", "b1"), ("type", "t")] [XNode.txt "H4s="]]

def gzipParse : String → Option XNode := fun _ => some gzipDoc

def corruptGz : GunzipOracle := fun _ => Except.error "corrupt"

def gzipBin : RawBin := ⟨0, "b1", "t", "H4s="⟩

-- A session whose visible text was cleared to whitespace after a decode.
def staleItem : DecodedItem := errorItem ⟨0, "b1", "binary", ""⟩ "Empty <binary> content."

def staleState : AppState := ⟨" ", "<a/>", [staleItem]⟩

-- A recognized fuel-price document whose station sits directly under
-- the root, outside any payloadPublication element.
def fuelNoPayloadDoc : XNode :=
  XNode.elem "publication" [("extensionName", "FuelPricePublication")]
    [XNode.elem "petrolStationInformation" []
      [XNode.elem "petrolStationReference" [("id", "s1"), ("version", "1")] [],
       XNode.elem "fuelPriceDiesel" [] [XNode.elem "price" [] [XNode.txt "1.50"]]]]

-- The same station inside a payloadPublication, and the row extracted
-- from it.
def fuelPayloadDoc : XNode :=
  XNode.elem "d2LogicalModel" [("extensionName", "FuelPricePublication")]
    [XNode.elem "payloadPublication" [("id", "p1"), ("xsi:type", "FuelPricePublicationExtension")]
      [XNode.elem "petrolStationInformation" []
        [XNode.elem "petrolStationReference" [("id", "s1"), ("version", "2")] [],
         XNode.elem "fuelPriceDiesel" []
           [XNode.elem "price" [] [XNode.txt "1.50"],
            XNode.elem "dateOfPrice" [] [XNode.txt "2024-01-01"]]]]]

def fuelRowW : FuelPriceRow :=
  ⟨"s1", "2", "Diesel", "1.50", "2024-01-01", "p1", "FuelPricePublicationExtension", "b1"⟩

-- A fuel row whose dateOfPrice is empty, and the worked pivot example
-- of the specification.
def emptyDateRow : FuelPriceRow := ⟨"s", "1", "diesel", "1.50", "", "p", "t", "b"⟩

def exampleRows : List FuelPriceRow :=
  [⟨"s", "1", "diesel", "1.50", "2024-01-01", "p", "t", "b"⟩,
   ⟨"s", "1", "diesel", "1.55", "2024-01-02", "p", "t", "b"⟩,
   ⟨"s", "1", "e5", "1.70", "2024-01-02", "p", "t", "b"⟩]

/- ### Helper lemmas -/

lemma charToSextet_sextetToChar (n : Nat) (h : n < 64) :
    charToSextet (sextetToChar n) = some n := by
  have : ∀ m : Fin 64, charToSextet (sextetToChar m.val) = some m.val := by decide
  exact this ⟨n, h⟩

lemma sextetToChar_ok (n : Nat) (h : n < 64) :
    isJsWhitespace (sextetToChar n) = false ∧ sextetToChar n ≠ '-' ∧
    sextetToChar n ≠ '_' ∧ sextetToChar n ≠ '=' := by
  have : ∀ m : Fin 64, isJsWhitespace (sextetToChar m.val) = false ∧
      sextetToChar m.val ≠ '-' ∧ sextetToChar m.val ≠ '_' ∧ sextetToChar m.val ≠ '=' := by decide
  exact this ⟨n, h⟩

lemma normalize_keep (c : Char) (l : List Char) (h1 : isJsWhitespace c = false)
    (h2 : c ≠ '-') (h3 : c ≠ '_') :
    normalizeB64Chars (c :: l) = c :: normalizeB64Chars l := by
  simp [normalizeB64Chars, h1, h2, h3]

lemma normalize_encodeB64 : ∀ x : List Nat, (∀ b ∈ x, b < 256) →
    normalizeB64Chars (encodeB64 x) = encodeB64 x
  | [], _ => by simp [encodeB64, normalizeB64Chars]
  | [b0], hx => by
    have h0 : b0 < 256 := hx b0 (by simp)
    have c1 := sextetToChar_ok (b0 / 4) (by omega)
    have c2 := sextetToChar_ok (b0 % 4 * 16) (by omega)
    have ceq : isJsWhitespace '=' = false ∧ ('=' : Char) ≠ '-' ∧ ('=' : Char) ≠ '_' := by decide
    simp only [encodeB64]
    rw [normalize_keep _ _ c1.1 c1.2.1 c1.2.2.1, normalize_keep _ _ c2.1 c2.2.1 c2.2.2.1,
      normalize_keep _ _ ceq.1 ceq.2.1 ceq.2.2, normalize_keep _ _ ceq.1 ceq.2.1 ceq.2.2]
    simp [normalizeB64Chars]
  | [b0, b1], hx => by
    have h0 : b0 < 256 := hx b0 (by simp)
    have h1 : b1 < 256 := hx b1 (by simp)
    have c1 := sextetToChar_ok (b0 / 4) (by omega)
    have c2 := sextetToChar_ok (b0 % 4 * 16 + b1 / 16) (by omega)
    have c3 := sextetToChar_ok (b1 % 16 * 4) (by omega)
    have ceq : isJsWhitespace '=' = false ∧ ('=' : Char) ≠ '-' ∧ ('=' : Char) ≠ '_' := by decide
    simp only [encodeB64]
    rw [normalize_keep _ _ c1.1 c1.2.1 c1.2.2.1, normalize_keep _ _ c2.1 c2.2.1 c2.2.2.1,
      normalize_keep _ _ c3.1 c3.2.1 c3.2.2.1, normalize_keep _ _ ceq.1 ceq.2.1 ceq.2.2]
    simp [normalizeB64Chars]
  | b0 :: b1 :: b2 :: rest, hx => by
    have h0 : b0 < 256 := hx b0 (by simp)
    have h1 : b1 < 256 := hx b1 (by simp)
    have h2 : b2 < 256 := hx b2 (by simp)
    have ih := normalize_encodeB64 rest (fun b hb => hx b (by simp [hb]))
    have c1 := sextetToChar_ok (b0 / 4) (by omega)
    have c2 := sextetToChar_ok (b0 % 4 * 16 + b1 / 16) (by omega)
    have c3 := sextetToChar_ok (b1 % 16 * 4 + b2 / 64) (by omega)
    have c4 := sextetToChar_ok (b2 % 64) (by omega)
    simp only [encodeB64]
    rw [normalize_keep _ _ c1.1 c1.2.1 c1.2.2.1, normalize_keep _ _ c2.1 c2.2.1 c2.2.2.1,
      normalize_keep _ _ c3.1 c3.2.1 c3.2.2.1, normalize_keep _ _ c4.1 c4.2.1 c4.2.2.1, ih]

lemma encodeB64_length_mod : ∀ x : List Nat, (encodeB64 x).length % 4 = 0
  | [] => by simp [encodeB64]
  | [_] => by simp [encodeB64]
  | [_, _] => by simp [encodeB64]
  | _ :: _ :: _ :: rest => by
    have ih := encodeB64_length_mod rest
    simp [encodeB64]; omega

lemma decode_encodeB64 : ∀ x : List Nat, (∀ b ∈ x, b < 256) →
    decodeB64Quads (encodeB64 x) = some x
  | [], _ => by simp [encodeB64, decodeB64Quads]
  | [b0], hx => by
    have h0 : b0 < 256 := hx b0 (by simp)
    have c1 := charToSextet_sextetToChar (b0 / 4) (by omega)
    have c2 := charToSextet_sextetToChar (b0 % 4 * 16) (by omega)
    simp only [encodeB64, decodeB64Quads, c1, c2]
    simp
    omega
  | [b0, b1], hx => by
    have h0 : b0 < 256 := hx b0 (by simp)
    have h1 : b1 < 256 := hx b1 (by simp)
    have c1 := charToSextet_sextetToChar (b0 / 4) (by omega)
    have c2 := charToSextet_sextetToChar (b0 % 4 * 16 + b1 / 16) (by omega)
    have c3 := charToSextet_sextetToChar (b1 % 16 * 4) (by omega)
    have ne3 := (sextetToChar_ok (b1 % 16 * 4) (by omega)).2.2.2
    simp only [encodeB64, decodeB64Quads, c1, c2, c3, if_neg ne3]
    simp
    constructor <;> omega
  | b0 :: b1 :: b2 :: rest, hx => by
    have h0 : b0 < 256 := hx b0 (by simp)
    have h1 : b1 < 256 := hx b1 (by simp)
    have h2 : b2 < 256 := hx b2 (by simp)
    have ih := decode_encodeB64 rest (fun b hb => hx b (by simp [hb]))
    have c1 := charToSextet_sextetToChar (b0 / 4) (by omega)
    have c2 := charToSextet_sextetToChar (b0 % 4 * 16 + b1 / 16) (by omega)
    have c3 := charToSextet_sextetToChar (b1 % 16 * 4 + b2 / 64) (by omega)
    have c4 := charToSextet_sextetToChar (b2 % 64) (by omega)
    have ne3 := (sextetToChar_ok (b1 % 16 * 4 + b2 / 64) (by omega)).2.2.2
    have ne4 := (sextetToChar_ok (b2 % 64) (by omega)).2.2.2
    simp only [encodeB64, decodeB64Quads, c1, c2, c3, c4, if_neg ne3, if_neg ne4, ih,
      Option.map_some', Option.some.injEq, List.cons.injEq, and_true]
    omega

lemma encodeB64_ne_nil (b : Nat) (l : List Nat) : encodeB64 (b :: l) ≠ [] := by
  match l with
  | [] => simp [encodeB64]
  | [b1] => simp [encodeB64]
  | b1 :: b2 :: t => simp [encodeB64]

lemma looksLikeText_eq_false_iff (bytes : List Nat) :
    looksLikeText bytes = false ↔
      (bytes.take 2048 = [] ∨ (bytes.take 2048).contains 0 = true ∨
        (bytes.take 2048).length ≤ 20 * controlishCount (bytes.take 2048)) := by
  simp only [looksLikeText]
  by_cases h1 : (bytes.take 2048).length = 0
  · rw [if_pos h1]
    have he : bytes.take 2048 = [] := List.length_eq_zero.mp h1
    simp [he]
  · rw [if_neg h1]
    by_cases h2 : (bytes.take 2048).contains 0
    · rw [if_pos h2]
      exact iff_of_true rfl (Or.inr (Or.inl h2))
    · rw [if_neg h2, decide_eq_false_iff_not, Nat.not_lt]
      constructor
      · intro h
        exact Or.inr (Or.inr h)
      · rintro (he | hc | hle)
        · exact absurd (by rw [he]; rfl) h1
        · exact absurd hc h2
        · exact hle

lemma foldl_push {α β : Type} (f : α → β) (rows : List α) (init : List β) :
    rows.foldl (fun acc r => acc ++ [f r]) init = init ++ rows.map f := by
  induction rows generalizing init with
  | nil => simp
  | cons r t ih => simp [ih]

lemma csvNeedsQuote_iff (s : String) :
    csvNeedsQuote s = true ↔ ∃ c ∈ s.toList, c = ',' ∨ c = '"' ∨ c = '\r' ∨ c = '\n' := by
  simp only [csvNeedsQuote, List.any_eq_true, Bool.or_eq_true, decide_eq_true_eq]
  constructor
  · rintro ⟨c, hc, h⟩
    exact ⟨c, hc, by tauto⟩
  · rintro ⟨c, hc, h⟩
    exact ⟨c, hc, by tauto⟩

lemma decodeOneBin_cases (g : GunzipOracle) (bin : RawBin) :
    (∃ msg, msg ≠ "" ∧ decodeOneBin g bin = errorItem bin msg) ∨
    ((decodeOneBin g bin).error = none ∧ (decodeOneBin g bin).decodedBytes.isSome = true) := by
  unfold decodeOneBin
  by_cases hb : bin.base64 = ""
  · exact Or.inl ⟨"Empty <binary> content.", by decide, by rw [if_pos hb]⟩
  · rw [if_neg hb]
    cases hdec : base64ToBytes bin.base64 with
    | none => exact Or.inl ⟨"Failed to decode.", by decide, rfl⟩
    | some raw => exact Or.inr ⟨rfl, rfl⟩

lemma errorItem_export (bin : RawBin) (msg : String) (hmsg : msg ≠ "") :
    (exportJsonItem (errorItem bin msg)).raw.bytes = 0 ∧
    (exportJsonItem (errorItem bin msg)).decoded.bytes = 0 ∧
    (exportJsonItem (errorItem bin msg)).raw.ext = "" ∧
    (exportJsonItem (errorItem bin msg)).raw.mime = "" ∧
    (exportJsonItem (errorItem bin msg)).decoded.ext = "" ∧
    (exportJsonItem (errorItem bin msg)).decoded.mime = "" ∧
    (exportJsonItem (errorItem bin msg)).decodedText = none ∧
    (exportJsonItem (errorItem bin msg)).decodedBase64 = none := by
  simp [exportJsonItem, errorItem, truthyStr, orNull, hmsg]

lemma requireDecodedItems_some (st : AppState) (l : List DecodedItem)
    (h : requireDecodedItems st = some l) : l = st.lastDecodedItems := by
  simp only [requireDecodedItems] at h
  split at h
  · cases h
  · split at h
    · cases h
    · exact (Option.some.inj h).symm

lemma joinStrings_split {α : Type} (f : α → String) (l : List α) (i : Nat) (x : α)
    (h : l.get? i = some x) :
    ∃ pre post, joinStrings (l.map f) = pre ++ f x ++ post := by
  induction l generalizing i with
  | nil => cases h
  | cons a t ih =>
    cases i with
    | zero =>
      obtain rfl : a = x := Option.some.inj h
      exact ⟨"", joinStrings (t.map f), by simp [joinStrings]⟩
    | succ n =>
      obtain ⟨pre, post, hp⟩ := ih n h
      refine ⟨f a ++ pre, post, ?_⟩
      simp only [List.map_cons, joinStrings, hp, String.append_assoc]

/- C2 -/

lemma mem_fuelPriceRowsOfInfo (doc payload info : XNode) (bid : String) (r : FuelPriceRow) :
    r ∈ fuelPriceRowsOfInfo doc payload info bid ↔
      ∃ c ∈ info.elemChildren,
        strStarts c.nodeName "fuelPrice" = true ∧
        ¬(getTextOf (c.elemsWithin "price").head? = "" ∧
          getTextOf (c.elemsWithin "dateOfPrice").head? = "") ∧
        r = { station_id := ((info.elemsWithin "petrolStationReference").head?.bind
                (fun s => s.getAttr "id")).getD ""
              station_version := ((info.elemsWithin "petrolStationReference").head?.bind
                (fun s => s.getAttr "version")).getD ""
              fuel := stringOr (c.nodeName.drop 9) "Unknown"
              price := getTextOf (c.elemsWithin "price").head?
              date_of_price := getTextOf (c.elemsWithin "dateOfPrice").head?
              publication_id := (payload.getAttr "id").getD ""
              publication_type := stringOr ((payload.getAttr "xsi:type").getD "")
                (rootExtensionName doc)
              binary_id := bid } := by
  simp only [fuelPriceRowsOfInfo, List.mem_filterMap]
  constructor
  · rintro ⟨c, hc, hf⟩
    by_cases h1 : strStarts c.nodeName "fuelPrice" = true
    · rw [if_pos h1] at hf
      by_cases h2 : getTextOf (c.elemsWithin "price").head? = "" ∧
          getTextOf (c.elemsWithin "dateOfPrice").head? = ""
      · rw [if_pos h2] at hf
        cases hf
      · rw [if_neg h2] at hf
        exact ⟨c, hc, h1, h2, (Option.some.inj hf).symm⟩
    · rw [if_neg h1] at hf
      cases hf
  · rintro ⟨c, hc, h1, h2, rfl⟩
    exact ⟨c, hc, by rw [if_pos h1, if_neg h2]⟩

lemma charListLe_cons (a b : Char) (as bs : List Char) :
    charListLe (a :: as) (b :: bs) = true ↔
      a.toNat < b.toNat ∨ (a.toNat = b.toNat ∧ charListLe as bs = true) := by
  simp only [charListLe]
  by_cases h1 : a.toNat < b.toNat
  · simp [h1]
  · rw [if_neg h1]
    by_cases h2 : b.toNat < a.toNat
    · simp only [if_pos h2]
      constructor
      · intro h
        cases h
      · intro h
        omega
    · have he : a.toNat = b.toNat := by omega
      simp [h2, he, h1]

lemma charListLe_total : ∀ a b : List Char, charListLe a b = true ∨ charListLe b a = true
  | [], _ => Or.inl rfl
  | _ :: _, [] => Or.inr rfl
  | a :: as, b :: bs => by
    rcases Nat.lt_trichotomy a.toNat b.toNat with h | h | h
    · exact Or.inl ((charListLe_cons ..).mpr (Or.inl h))
    · rcases charListLe_total as bs with hr | hr
      · exact Or.inl ((charListLe_cons ..).mpr (Or.inr ⟨h, hr⟩))
      · exact Or.inr ((charListLe_cons ..).mpr (Or.inr ⟨h.symm, hr⟩))
    · exact Or.inr ((charListLe_cons ..).mpr (Or.inl h))

lemma charListLe_trans : ∀ a b c : List Char,
    charListLe a b = true → charListLe b c = true → charListLe a c = true
  | [], _, _, _, _ => rfl
  | _ :: _, [], _, h, _ => by cases h
  | _ :: _, _ :: _, [], _, h => by cases h
  | a :: as, b :: bs, c :: cs, h1, h2 => by
    rw [charListLe_cons] at h1 h2 ⊢
    rcases h1 with h1 | ⟨h1e, h1r⟩ <;> rcases h2 with h2 | ⟨h2e, h2r⟩
    · exact Or.inl (by omega)
    · exact Or.inl (by omega)
    · exact Or.inl (by omega)
    · exact Or.inr ⟨by omega, charListLe_trans as bs cs h1r h2r⟩

lemma getField_setField (row : List (String × String)) (k v k' : String) :
    getField (setField row k v) k' = if k' = k then some v else getField row k' := by
  induction row with
  | nil =>
    simp only [setField, getField]
    by_cases h : k' = k
    · simp [h]
    · rw [if_neg h, if_neg (fun hh : k = k' => h hh.symm)]
  | cons hd tl ih =>
    obtain ⟨hk, hv⟩ := hd
    simp only [setField]
    by_cases h : hk = k
    · rw [if_pos h]
      simp only [getField]
      by_cases h' : k' = k
      · rw [if_pos h'.symm, if_pos h']
      · rw [if_neg (fun hh : k = k' => h' hh.symm), if_neg h',
          if_neg (fun hh : hk = k' => h' (hh.symm.trans h))]
    · rw [if_neg h]
      simp only [getField]
      by_cases h2 : hk = k'
      · rw [if_pos h2, if_neg (fun hh : k' = k => h (h2.trans hh)), if_pos h2]
      · rw [if_neg h2, ih, if_neg h2]

lemma getField_const_fold (l : List String) (v : String) (init : List (String × String))
    (f : String) :
    getField (l.foldl (fun row k => setField row k v) init) f =
      if f ∈ l then some v else getField init f := by
  induction l generalizing init with
  | nil => simp
  | cons a t ih =>
    simp only [List.foldl_cons, ih, getField_setField]
    by_cases hf : f ∈ t
    · simp [hf]
    · by_cases ha : f = a
      · simp [ha, hf]
      · simp [hf, ha]

lemma getField_price_fold (g : List FuelPriceRow) (init : List (String × String)) (f : String) :
    getField (g.foldl (fun row r => setField row r.fuel r.price) init) f =
      match (g.filter (fun r => r.fuel = f)).getLast? with
      | some r => some r.price
      | none => getField init f := by
  induction g generalizing init with
  | nil => simp
  | cons r t ih =>
    simp only [List.foldl_cons, ih]
    by_cases hr : r.fuel = f
    · rw [List.filter_cons_of_pos (by simp [hr])]
      by_cases hft : t.filter (fun x => x.fuel = f) = []
      · rw [hft]
        simp [hft, getField_setField, hr.symm]
      · obtain ⟨x, xs, hxs⟩ := List.exists_cons_of_ne_nil hft
        rw [hxs, List.getLast?_cons_cons, ← hxs]
        cases hlast : (t.filter (fun x => x.fuel = f)).getLast? with
        | some r' => rfl
        | none => exact absurd (List.getLast?_eq_none_iff.mp hlast) hft
    · rw [List.filter_cons_of_neg (by simp [hr])]
      cases hlast : (t.filter (fun x => x.fuel = f)).getLast? with
      | some r' => rfl
      | none => rw [getField_setField, if_neg (fun hh : f = r.fuel => hr hh.symm)]

/- groupBy lemmas. -/

lemma mapGet_addToGroup {α : Type} (m : List (String × List α)) (k : String) (r : α)
    (k' : String) :
    mapGet (addToGroup m k r) k' =
      if k' = k then some ((mapGet m k).getD [] ++ [r]) else mapGet m k' := by
  induction m with
  | nil =>
    simp only [addToGroup, mapGet]
    by_cases h : k' = k
    · rw [if_pos h.symm, if_pos h]
      rfl
    · rw [if_neg (fun hh : k = k' => h hh.symm), if_neg h]
  | cons e t ih =>
    obtain ⟨ek, el⟩ := e
    simp only [addToGroup]
    by_cases h : ek = k
    · rw [if_pos h]
      simp only [mapGet]
      by_cases h' : k' = k
      · rw [if_pos (h.trans h'.symm), if_pos h', if_pos h]
        rfl
      · rw [if_neg (fun hh : ek = k' => h' (hh.symm.trans h)), if_neg h',
          if_neg (fun hh : ek = k' => h' (hh.symm.trans h))]
    · rw [if_neg h]
      simp only [mapGet]
      by_cases h2 : ek = k'
      · rw [if_pos h2, if_neg (fun hh : k' = k => h (h2.trans hh)), if_pos h2]
      · rw [if_neg h2, ih, if_neg h2]
        by_cases h3 : k' = k
        · rw [if_pos h3, if_pos h3, if_neg (fun hh : ek = k => h2 (hh.trans h3.symm))]
        · rw [if_neg h3, if_neg h3]

lemma mapGet_groupBy_fold {α : Type} (key : α → String) (rows : List α)
    (m : List (String × List α)) (k : String) :
    mapGet (rows.foldl (fun acc r => addToGroup acc (key r) r) m) k =
      match mapGet m k with
      | some g => some (g ++ rows.filter (fun r => key r = k))
      | none =>
        if (rows.filter (fun r => key r = k)).isEmpty then none
        else some (rows.filter (fun r => key r = k)) := by
  induction rows generalizing m with
  | nil =>
    cases h : mapGet m k <;> simp [h]
  | cons a t ih =>
    simp only [List.foldl_cons, ih, mapGet_addToGroup]
    by_cases ha : key a = k
    · rw [List.filter_cons_of_pos (by simp [ha]), if_pos ha.symm]
      cases h : mapGet m k with
      | some g =>
        rw [ha, h]
        simp [List.append_assoc]
      | none =>
        rw [ha, h]
        simp
    · rw [List.filter_cons_of_neg (by simp [ha]), if_neg (fun hh : k = key a => ha hh.symm)]

lemma mapGet_groupBy {α : Type} (key : α → String) (rows : List α) (k : String) :
    (mapGet (groupBy key rows) k).getD [] = rows.filter (fun r => key r = k) := by
  have h := mapGet_groupBy_fold key rows [] k
  simp only [mapGet] at h
  rw [groupBy, h]
  by_cases he : (rows.filter (fun r => key r = k)).isEmpty
  · simp [he, List.isEmpty_iff.mp he]
  · simp [he]

lemma mem_dedupFirstAux (l : List String) (seen : List String) (x : String) :
    x ∈ dedupFirstAux l seen ↔ x ∈ l ∧ x ∉ seen := by
  induction l generalizing seen with
  | nil => simp [dedupFirstAux]
  | cons a t ih =>
    simp only [dedupFirstAux]
    by_cases ha : a ∈ seen
    · rw [if_pos ha, ih]
      constructor
      · rintro ⟨hx, hs⟩
        exact ⟨List.mem_cons_of_mem a hx, hs⟩
      · rintro ⟨hx, hs⟩
        rcases List.mem_cons.mp hx with rfl | hx
        · exact absurd ha hs
        · exact ⟨hx, hs⟩
    · rw [if_neg ha]
      simp only [List.mem_cons, ih, List.mem_cons]
      constructor
      · rintro (rfl | ⟨hx, hs⟩)
        · exact ⟨Or.inl rfl, ha⟩
        · exact ⟨Or.inr hx, fun hh => hs (Or.inr hh)⟩
      · rintro ⟨rfl | hx, hs⟩
        · exact Or.inl rfl
        · by_cases hxa : x = a
          · exact Or.inl hxa
          · exact Or.inr ⟨hx, fun hh => hh.elim hxa hs⟩

lemma nodup_dedupFirstAux (l : List String) (seen : List String) :
    (dedupFirstAux l seen).Nodup := by
  induction l generalizing seen with
  | nil => simp [dedupFirstAux]
  | cons a t ih =>
    simp only [dedupFirstAux]
    by_cases ha : a ∈ seen
    · rw [if_pos ha]
      exact ih _
    · rw [if_neg ha]
      refine List.nodup_cons.mpr ⟨fun hmem => ?_, ih _⟩
      exact ((mem_dedupFirstAux ..).mp hmem).2 (List.mem_cons_self a _)

lemma dedupFirstAux_congr (l : List String) (s1 s2 : List String)
    (h : ∀ x, x ∈ s1 ↔ x ∈ s2) : dedupFirstAux l s1 = dedupFirstAux l s2 := by
  induction l generalizing s1 s2 with
  | nil => rfl
  | cons a t ih =>
    simp only [dedupFirstAux]
    by_cases ha : a ∈ s1
    · rw [if_pos ha, if_pos ((h a).mp ha)]
      exact ih _ _ h
    · rw [if_neg ha, if_neg (fun hh => ha ((h a).mpr hh))]
      refine congrArg (a :: ·) (ih _ _ (fun x => ?_))
      simp [h x]

lemma addToGroup_keys {α : Type} (m : List (String × List α)) (k : String) (r : α) :
    (addToGroup m k r).map Prod.fst =
      if k ∈ m.map Prod.fst then m.map Prod.fst else m.map Prod.fst ++ [k] := by
  induction m with
  | nil => simp [addToGroup]
  | cons e t ih =>
    obtain ⟨ek, el⟩ := e
    simp only [addToGroup]
    by_cases h : ek = k
    · rw [if_pos h]
      simp [h]
    · rw [if_neg h]
      simp only [List.map_cons, ih]
      by_cases hk : k ∈ t.map Prod.fst
      · rw [if_pos hk, if_pos (List.mem_cons_of_mem _ hk)]
      · rw [if_neg hk, if_neg (fun hh => (List.mem_cons.mp hh).elim (fun he => h he.symm) hk)]
        rfl

lemma groupBy_keys_fold {α : Type} (key : α → String) (rows : List α)
    (m : List (String × List α)) :
    (rows.foldl (fun acc r => addToGroup acc (key r) r) m).map Prod.fst =
      m.map Prod.fst ++ dedupFirstAux (rows.map key) (m.map Prod.fst) := by
  induction rows generalizing m with
  | nil => simp [dedupFirstAux]
  | cons a t ih =>
    simp only [List.foldl_cons, List.map_cons, dedupFirstAux]
    rw [ih, addToGroup_keys]
    by_cases h : key a ∈ m.map Prod.fst
    · rw [if_pos h, if_pos h]
    · rw [if_neg h, if_neg h,
        dedupFirstAux_congr (t.map key) ((m.map Prod.fst) ++ [key a]) (key a :: m.map Prod.fst)
          (fun x => by simp [or_comm])]
      simp [List.append_assoc]

lemma groupBy_keys {α : Type} (key : α → String) (rows : List α) :
    (groupBy key rows).map Prod.fst = dedupFirst (rows.map key) := by
  have h := groupBy_keys_fold key rows []
  simpa [dedupFirst] using h

/- ### Claim theorems -/

/-- Claim C1 (corrected): for byte sequences carrying neither the gzip nor the zip magic, `describeBytes` returns the binary descriptor exactly when the 2048-byte sample is empty, contains a NUL byte, or has a control-ish fraction of at least 5 percent (not strictly above 5 percent, as originally claimed); in every other case the resulting descriptor has `isText = true`. -/
theorem describeBytes_binary_classification (bytes : List Nat)
    (hg : looksGzip bytes = false) (hz : looksZip bytes = false) :
    (describeBytes bytes = ⟨"bin", "application/octet-stream", false⟩ ↔
      (bytes.take 2048 = [] ∨ (bytes.take 2048).contains 0 = true ∨
        (bytes.take 2048).length ≤ 20 * controlishCount (bytes.take 2048))) ∧
    (¬(bytes.take 2048 = [] ∨ (bytes.take 2048).contains 0 = true ∨
        (bytes.take 2048).length ≤ 20 * controlishCount (bytes.take 2048)) →
      (describeBytes bytes).isText = true) := by
  have hiff := looksLikeText_eq_false_iff bytes
  by_cases h : looksLikeText bytes
  · have hfalse : ¬ (bytes.take 2048 = [] ∨ (bytes.take 2048).contains 0 = true ∨
        (bytes.take 2048).length ≤ 20 * controlishCount (bytes.take 2048)) := by
      intro hr
      rw [← hiff] at hr
      simp [h] at hr
    constructor
    · rw [iff_false_intro hfalse]
      simp only [describeBytes, hg, hz, h]
      simp only [Bool.false_eq_true, if_false, Bool.not_true, iff_false]
      split
      · simp [ContentDescriptor.mk.injEq]
      · split <;> simp [ContentDescriptor.mk.injEq]
    · intro _
      simp only [describeBytes, hg, hz, h]
      simp only [Bool.false_eq_true, if_false, Bool.not_true]
      split
      · rfl
      · split <;> rfl
  · have hb : looksLikeText bytes = false := by simpa using h
    have htrue := hiff.mp hb
    constructor
    · rw [iff_true_intro htrue]
      simp [describeBytes, hg, hz, hb]
    · intro hcon
      exact absurd htrue hcon

-- Counterexample to claim C1 as stated: a sample at exactly 5 percent
-- control-ish bytes (which does not exceed 5 percent) is classified as
-- binary, not text.
theorem describeBytes_five_percent_boundary :
    looksGzip c1Bytes = false ∧ looksZip c1Bytes = false ∧
    (c1Bytes.take 2048).contains 0 = false ∧
    20 * controlishCount (c1Bytes.take 2048) = (c1Bytes.take 2048).length ∧
    ¬((c1Bytes.take 2048).length < 20 * controlishCount (c1Bytes.take 2048)) ∧
    describeBytes c1Bytes = ⟨"bin", "application/octet-stream", false⟩ := by
  decide

theorem describeBytes_binary_classification_witness :
    looksGzip [65] = false ∧ looksZip [65] = false ∧ (describeBytes [65]).isText = true :=
  ⟨rfl, rfl, (describeBytes_binary_classification [65] rfl rfl).2 (by decide)⟩

/-- Claim C2: a binary item whose base64 decodes to bytes with the gzip magic but whose decompression fails still yields a `DecodedItem` with `decodedBytes = rawBytes`, `wasGunzipped = false`, a non-empty `gunzipError` and no `error`; the item list keeps one entry per extracted binary, and the item appears in both the JSON and the XML export documents. -/
theorem corrupt_gzip_item_preserved (parse : String → Option XNode) (g : GunzipOracle)
    (text : String) (bins : List RawBin) (i : Nat) (bin : RawBin) (raw : List Nat) (msg : String)
    (hbins : extractBinaryItems parse text = .ok bins)
    (hbin : bins.get? i = some bin)
    (hne : bin.base64 ≠ "")
    (hdec : base64ToBytes bin.base64 = some raw)
    (hgz : looksGzip raw = true)
    (hfail : g raw = .error msg) :
    ∃ items, decodeXmlToItems parse g text = .ok items ∧ items.length = bins.length ∧
    ∃ it, items.get? i = some it ∧
      it.error = none ∧ it.rawBytes = some raw ∧ it.decodedBytes = some raw ∧
      it.wasGunzipped = false ∧
      (∃ gm, it.gunzipError = some gm ∧ gm ≠ "") ∧
      (∀ st now doc, st.lastDecodedItems = items → downloadDecodedJson st now = some doc →
        doc.items.get? i = some (exportJsonItem it)) ∧
      (∀ st now x, st.lastDecodedItems = items → downloadDecodedXml st now = some x →
        ∃ pre post, x = pre ++ xmlEntryForItem it ++ post) := by
  refine ⟨bins.map (decodeOneBin g), ?_, by simp, ?_⟩
  · simp [decodeXmlToItems, hbins, Except.map]
  have hget : (bins.map (decodeOneBin g)).get? i = some (decodeOneBin g bin) := by
    rw [List.get?_eq_getElem?, List.getElem?_map, ← List.get?_eq_getElem?, hbin]
    rfl
  refine ⟨decodeOneBin g bin, hget, ?_, ?_, ?_, ?_, ?_, ?_, ?_⟩
  · simp [decodeOneBin, hne, hdec, hgz, hfail]
  · simp [decodeOneBin, hne, hdec, hgz, hfail]
  · simp [decodeOneBin, hne, hdec, hgz, hfail]
  · simp [decodeOneBin, hne, hdec, hgz, hfail]
  · refine ⟨if msg = "" then "Failed to gunzip." else msg, ?_, ?_⟩
    · simp [decodeOneBin, hne, hdec, hgz, hfail]
    · split
      · decide
      · assumption
  · intro st now doc hst hjson
    cases hreq : requireDecodedItems st with
    | none =>
      simp only [downloadDecodedJson, hreq] at hjson
      cases hjson
    | some l =>
      simp only [downloadDecodedJson, hreq] at hjson
      have hl := requireDecodedItems_some st l hreq
      obtain rfl := Option.some.inj hjson
      show ((l.map exportJsonItem).get? i = _)
      rw [hl, hst, List.get?_eq_getElem?, List.getElem?_map, List.getElem?_map,
        ← List.get?_eq_getElem?, hbin]
      rfl
  · intro st now x hst hxml
    cases hreq : requireDecodedItems st with
    | none =>
      simp only [downloadDecodedXml, hreq] at hxml
      cases hxml
    | some l =>
      simp only [downloadDecodedXml, hreq] at hxml
      have hl := requireDecodedItems_some st l hreq
      rw [hl, hst] at hxml
      obtain ⟨pre, post, hp⟩ := joinStrings_split xmlEntryForItem (bins.map (decodeOneBin g))
        i (decodeOneBin g bin) hget
      rw [hp] at hxml
      obtain rfl := Option.some.inj hxml
      refine ⟨"<?xml version=\"1.0\" encoding=\"UTF-8\"?>\n" ++
        "<decodedBinaries generatedAt=\"" ++ escapeXmlAttr now ++ "\">\n" ++ pre,
        post ++ "</decodedBinaries>\n", ?_⟩
      simp only [String.append_assoc]

theorem corrupt_gzip_item_preserved_witness :
    extractBinaryItems gzipParse "x" = Except.ok [gzipBin] ∧
    gzipBin.base64 ≠ "" ∧
    base64ToBytes gzipBin.base64 = some [0x1f, 0x8b] ∧
    looksGzip [0x1f, 0x8b] = true ∧
    (∃ items, decodeXmlToItems gzipParse corruptGz "x" = .ok items ∧
      items.length = ([gzipBin] : List RawBin).length ∧
      ∃ it, items.get? 0 = some it ∧
        it.error = none ∧ it.rawBytes = some [0x1f, 0x8b] ∧
        it.decodedBytes = some [0x1f, 0x8b] ∧
        it.wasGunzipped = false ∧
        (∃ gm, it.gunzipError = some gm ∧ gm ≠ "") ∧
        (∀ st now doc, st.lastDecodedItems = items → downloadDecodedJson st now = some doc →
          doc.items.get? 0 = some (exportJsonItem it)) ∧
        (∀ st now x, st.lastDecodedItems = items → downloadDecodedXml st now = some x →
          ∃ pre post, x = pre ++ xmlEntryForItem it ++ post)) :=
  ⟨by rfl, by decide, by decide, by decide,
   corrupt_gzip_item_preserved gzipParse corruptGz "x" [gzipBin] 0 gzipBin [0x1f, 0x8b] "corrupt"
     (by rfl) (by decide) (by decide) (by decide) (by decide) (by rfl)⟩

/- C5 amended -/

/-- Claim C3: when the outer XML does not parse, `decodeXmlToItems` fails as a whole with the `Invalid XML (parser error).` message and produces no items; when it parses, the batch always succeeds with exactly one item per `binary` element regardless of the per-item data, so the parse step is the only point where a single error aborts the whole batch. -/
theorem invalid_xml_aborts (parse : String → Option XNode) (g : GunzipOracle) (text : String) :
    (parse text = none →
      decodeXmlToItems parse g text = .error "Invalid XML (parser error)." ∧
      ∀ items, ¬ decodeXmlToItems parse g text = .ok items) ∧
    (∀ doc, parse text = some doc →
      ∃ items, decodeXmlToItems parse g text = .ok items ∧
        items.length = (docElemsNamed doc "binary").length) := by
  constructor
  · intro h
    have herr : decodeXmlToItems parse g text = .error "Invalid XML (parser error)." := by
      simp [decodeXmlToItems, extractBinaryItems, h, Except.map]
    refine ⟨herr, fun items hc => ?_⟩
    rw [herr] at hc
    cases hc
  · intro doc h
    simp only [decodeXmlToItems, extractBinaryItems, h, Except.map]
    refine ⟨_, rfl, ?_⟩
    simp

theorem invalid_xml_aborts_witness :
    decodeXmlToItems (fun _ => none) (fun _ => .error "") "x" =
      .error "Invalid XML (parser error)." :=
  ((invalid_xml_aborts (fun _ => none) (fun _ => .error "") "x").1 rfl).1

/- C6 helper -/

/-- Claim C4 (corrected): extraction yields rows exactly when the document is recognized (root `extensionName` equal to `FuelPricePublication`, or some `payloadPublication` whose `xsi:type` attribute contains that string); when recognized, a `FuelPriceRow` is in the output iff it comes from a direct child whose local name starts with `fuelPrice` of a `petrolStationInformation` element that is a descendant of a `payloadPublication` element, has a non-empty price or dateOfPrice text, and carries fuel = the local name with the `fuelPrice` prefix stripped, or `Unknown` when nothing remains. -/
theorem fuel_price_extraction (doc : XNode) (binaryId : String) :
    (extractFuelPricePublication doc binaryId = none ↔ isFuelPriceDoc doc = false) ∧
    (isFuelPriceDoc doc = true ↔
      (rootExtensionName doc = "FuelPricePublication" ∨
        ∃ p ∈ docElemsNamed doc "payloadPublication",
          strContains ((p.getAttr "xsi:type").getD "") "FuelPricePublication" = true)) ∧
    (∀ fr ov, extractFuelPricePublication doc binaryId = some (fr, ov) →
      ∀ r, r ∈ fr ↔
        ∃ p ∈ docElemsNamed doc "payloadPublication",
        ∃ info ∈ p.elemsWithin "petrolStationInformation",
        ∃ c ∈ info.elemChildren,
          strStarts c.nodeName "fuelPrice" = true ∧
          ¬(getTextOf (c.elemsWithin "price").head? = "" ∧
            getTextOf (c.elemsWithin "dateOfPrice").head? = "") ∧
          r = { station_id := ((info.elemsWithin "petrolStationReference").head?.bind
                  (fun s => s.getAttr "id")).getD ""
                station_version := ((info.elemsWithin "petrolStationReference").head?.bind
                  (fun s => s.getAttr "version")).getD ""
                fuel := stringOr (c.nodeName.drop 9) "Unknown"
                price := getTextOf (c.elemsWithin "price").head?
                date_of_price := getTextOf (c.elemsWithin "dateOfPrice").head?
                publication_id := (p.getAttr "id").getD ""
                publication_type := stringOr ((p.getAttr "xsi:type").getD "")
                  (rootExtensionName doc)
                binary_id := binaryId }) := by
  refine ⟨?_, ?_, ?_⟩
  · by_cases h : isFuelPriceDoc doc <;> simp [extractFuelPricePublication, h]
  · simp only [isFuelPriceDoc, Bool.or_eq_true, List.any_eq_true, decide_eq_true_eq]
  · intro fr ov hsome r
    by_cases h : isFuelPriceDoc doc
    · rw [extractFuelPricePublication, if_neg (by simp [h])] at hsome
      injection Option.some.inj hsome with hfr hov
      subst hfr
      simp only [List.mem_flatMap, mem_fuelPriceRowsOfInfo]
    · rw [Bool.not_eq_true] at h
      rw [extractFuelPricePublication, if_pos (by simp [h])] at hsome
      cases hsome

/- C4 counterexample: a recognized document whose station sits directly
under the root, outside any payloadPublication: no row is emitted. -/

-- Counterexample to claim C4 as stated: a recognized document with a
-- qualifying fuelPrice child outside any payloadPublication yields no
-- row at all.
theorem fuel_rows_need_payload_counterexample :
    isFuelPriceDoc fuelNoPayloadDoc = true ∧
    (∃ info ∈ docElemsNamed fuelNoPayloadDoc "petrolStationInformation",
      ∃ c ∈ info.elemChildren, strStarts c.nodeName "fuelPrice" = true ∧
        getTextOf (c.elemsWithin "price").head? = "1.50") ∧
    extractFuelPricePublication fuelNoPayloadDoc "b" = some ([], []) := by
  refine ⟨by decide, ?_, by decide⟩
  decide

/- C4 witness document: the same station inside a payloadPublication. -/

theorem fuel_price_extraction_witness :
    extractFuelPricePublication fuelPayloadDoc "b1" = some ([fuelRowW], []) ∧
    (∀ r, r ∈ [fuelRowW] ↔
      ∃ p ∈ docElemsNamed fuelPayloadDoc "payloadPublication",
      ∃ info ∈ p.elemsWithin "petrolStationInformation",
      ∃ c ∈ info.elemChildren,
        strStarts c.nodeName "fuelPrice" = true ∧
        ¬(getTextOf (c.elemsWithin "price").head? = "" ∧
          getTextOf (c.elemsWithin "dateOfPrice").head? = "") ∧
        r = { station_id := ((info.elemsWithin "petrolStationReference").head?.bind
                (fun s => s.getAttr "id")).getD ""
              station_version := ((info.elemsWithin "petrolStationReference").head?.bind
                (fun s => s.getAttr "version")).getD ""
              fuel := stringOr (c.nodeName.drop 9) "Unknown"
              price := getTextOf (c.elemsWithin "price").head?
              date_of_price := getTextOf (c.elemsWithin "dateOfPrice").head?
              publication_id := (p.getAttr "id").getD ""
              publication_type := stringOr ((p.getAttr "xsi:type").getD "")
                (rootExtensionName fuelPayloadDoc)
              binary_id := "b1" }) :=
  ⟨by decide, (fuel_price_extraction fuelPayloadDoc "b1").2.2 [fuelRowW] [] (by decide)⟩

/-- Claim C5 (corrected): the JSON and XML exports are refused (no document produced, an error status shown instead) exactly when the trimmed visible text is non-empty, the stored last-decoded text is non-empty and the two differ, or when no decoded items are stored; a visible text that trims to empty does not block the export. -/
theorem export_requires_fresh_decode (st : AppState) (now : String) :
    (downloadDecodedJson st now = none ↔
      ((trimJs st.xmlTextVisible ≠ "" ∧ st.lastResponseXml ≠ "" ∧
          trimJs st.xmlTextVisible ≠ st.lastResponseXml) ∨ st.lastDecodedItems = [])) ∧
    (downloadDecodedXml st now = none ↔
      ((trimJs st.xmlTextVisible ≠ "" ∧ st.lastResponseXml ≠ "" ∧
          trimJs st.xmlTextVisible ≠ st.lastResponseXml) ∨ st.lastDecodedItems = [])) := by
  have hreq : requireDecodedItems st = none ↔
      ((trimJs st.xmlTextVisible ≠ "" ∧ st.lastResponseXml ≠ "" ∧
          trimJs st.xmlTextVisible ≠ st.lastResponseXml) ∨ st.lastDecodedItems = []) := by
    simp only [requireDecodedItems]
    by_cases h1 : trimJs st.xmlTextVisible ≠ "" ∧ st.lastResponseXml ≠ "" ∧
        trimJs st.xmlTextVisible ≠ st.lastResponseXml
    · simp [h1]
    · rw [if_neg h1]
      by_cases h2 : st.lastDecodedItems.isEmpty
      · simp [h2, List.isEmpty_iff.mp h2, h1]
      · have hne : st.lastDecodedItems ≠ [] := by
          intro he
          exact h2 (by simp [he])
        simp [h2, h1, hne]
  constructor
  · rw [← hreq]
    unfold downloadDecodedJson
    cases requireDecodedItems st <;> simp
  · rw [← hreq]
    unfold downloadDecodedXml
    cases requireDecodedItems st <;> simp

/- C5 counterexample: the visible text was cleared to whitespace (so it
differs from the decoded source), yet both exports are produced. -/

-- Counterexample to claim C5 as stated: the visible text differs from
-- the source of the last decode (it was cleared to whitespace), yet
-- both exports are produced.
theorem export_stale_counterexample :
    staleState.xmlTextVisible ≠ staleState.lastResponseXml ∧
    staleState.lastDecodedItems ≠ [] ∧
    (downloadDecodedJson staleState "2024-01-01T00:00:00.000Z").isSome = true ∧
    (downloadDecodedXml staleState "2024-01-01T00:00:00.000Z").isSome = true := by
  exact ⟨by decide, by decide, by decide, by decide⟩

/-- Claim C6: every `DecodedItem` produced by the orchestrator either carries a (non-empty) error or has `decodedBytes` present; when the error is set, the raw and decoded byte and info fields are absent and the JSON export renders the item with zero byte counts, empty extension and mime, and neither `decodedText` nor `decodedBase64`. -/
theorem decoded_item_invariants (parse : String → Option XNode) (g : GunzipOracle)
    (text : String) (items : List DecodedItem)
    (hok : decodeXmlToItems parse g text = .ok items) :
    ∀ it ∈ items,
      (it.error = none → it.decodedBytes.isSome = true) ∧
      (∀ msg, it.error = some msg →
        msg ≠ "" ∧
        it.rawBytes = none ∧ it.decodedBytes = none ∧
        it.rawInfo = none ∧ it.decodedInfo = none ∧
        (exportJsonItem it).raw.bytes = 0 ∧ (exportJsonItem it).decoded.bytes = 0 ∧
        (exportJsonItem it).raw.ext = "" ∧ (exportJsonItem it).raw.mime = "" ∧
        (exportJsonItem it).decoded.ext = "" ∧ (exportJsonItem it).decoded.mime = "" ∧
        (exportJsonItem it).decodedText = none ∧ (exportJsonItem it).decodedBase64 = none) := by
  intro it hit
  cases hparse : parse text with
  | none =>
    rw [show decodeXmlToItems parse g text = .error "Invalid XML (parser error)." by
      simp [decodeXmlToItems, extractBinaryItems, hparse, Except.map]] at hok
    cases hok
  | some doc =>
    simp only [decodeXmlToItems, extractBinaryItems, hparse, Except.map, Except.ok.injEq] at hok
    subst hok
    obtain ⟨bin, _, rfl⟩ := List.mem_map.mp hit
    rcases decodeOneBin_cases g bin with ⟨msg, hmsg, heq⟩ | ⟨herr, hdec⟩
    · rw [heq]
      constructor
      · intro habs
        simp [errorItem] at habs
      · intro msg' hmsg'
        have : msg = msg' := by
          simpa [errorItem] using hmsg'
        subst this
        have hexp := errorItem_export bin msg hmsg
        exact ⟨hmsg, rfl, rfl, rfl, rfl, hexp.1, hexp.2.1, hexp.2.2.1, hexp.2.2.2.1,
          hexp.2.2.2.2.1, hexp.2.2.2.2.2.1, hexp.2.2.2.2.2.2.1, hexp.2.2.2.2.2.2.2⟩
    · refine ⟨fun _ => hdec, fun msg hmsg => ?_⟩
      rw [herr] at hmsg
      cases hmsg

theorem decoded_item_invariants_witness :
    decodeXmlToItems emptyBinParse emptyBinGz "x" = Except.ok [emptyBinItem] ∧
    ((emptyBinItem.error = none → emptyBinItem.decodedBytes.isSome = true) ∧
      (∀ msg, emptyBinItem.error = some msg →
        msg ≠ "" ∧
        emptyBinItem.rawBytes = none ∧ emptyBinItem.decodedBytes = none ∧
        emptyBinItem.rawInfo = none ∧ emptyBinItem.decodedInfo = none ∧
        (exportJsonItem emptyBinItem).raw.bytes = 0 ∧
        (exportJsonItem emptyBinItem).decoded.bytes = 0 ∧
        (exportJsonItem emptyBinItem).raw.ext = "" ∧
        (exportJsonItem emptyBinItem).raw.mime = "" ∧
        (exportJsonItem emptyBinItem).decoded.ext = "" ∧
        (exportJsonItem emptyBinItem).decoded.mime = "" ∧
        (exportJsonItem emptyBinItem).decodedText = none ∧
        (exportJsonItem emptyBinItem).decodedBase64 = none)) :=
  ⟨by rfl,
   decoded_item_invariants emptyBinParse emptyBinGz "x" [emptyBinItem] (by rfl)
     emptyBinItem (by decide)⟩

/- C2 helpers -/

/-- Claim C7: decoding the base64 encoding of any byte buffer returns the buffer byte for byte; consequently the double round trip also returns it. -/
theorem base64ToBytes_bytesToBase64 (x : List Nat) (hx : ∀ b ∈ x, b < 256) :
    base64ToBytes (bytesToBase64 x) = some x ∧
    (base64ToBytes (bytesToBase64 x)).bind (fun y => base64ToBytes (bytesToBase64 y)) = some x := by
  have hmain : base64ToBytes (bytesToBase64 x) = some x := by
    cases x with
    | nil => decide
    | cons b t =>
      have hnorm := normalize_encodeB64 (b :: t) hx
      have hne : encodeB64 (b :: t) ≠ [] := encodeB64_ne_nil b t
      simp only [base64ToBytes, bytesToBase64]
      rw [show (String.mk (encodeB64 (b :: t))).toList = encodeB64 (b :: t) from rfl, hnorm]
      rw [if_neg (by simpa [List.isEmpty_iff] using hne)]
      simp only [padB64, if_pos (encodeB64_length_mod (b :: t))]
      exact decode_encodeB64 _ hx
  refine ⟨hmain, ?_⟩
  rw [hmain]
  simpa using hmain

theorem base64_roundtrip_witness :
    (∀ b ∈ [0, 1, 77, 255], b < 256) ∧
    base64ToBytes (bytesToBase64 [0, 1, 77, 255]) = some [0, 1, 77, 255] :=
  ⟨by decide, (base64ToBytes_bytesToBase64 [0, 1, 77, 255] (by decide)).1⟩

/-- Claim C8 (corrected): for the fuel rows of one station, provided no fuel is literally named `date_of_price` (such a column would collide with the date column), the wide pivot has one column per distinct non-empty fuel name, sorted and without duplicates; one row per distinct non-empty `dateOfPrice` value in ascending order (a row with an empty `dateOfPrice` contributes no pivot row); and each cell holds the price of the last input row with that date and fuel, or the empty string when there is none. -/
theorem wide_pivot_spec (rows : List FuelPriceRow)
    (hcol : "date_of_price" ∉ (wideFuelRowsForStation rows).1) :
    ((wideFuelRowsForStation rows).1.Nodup ∧
     List.Sorted (fun a b => strLe a b = true) (wideFuelRowsForStation rows).1 ∧
     (∀ f, f ∈ (wideFuelRowsForStation rows).1 ↔ (f ≠ "" ∧ ∃ r ∈ rows, r.fuel = f))) ∧
    ((wideFuelRowsForStation rows).2.map (fun w => (getField w "date_of_price").getD "") =
      sortStrings ((dedupFirst (rows.map (fun r => r.date_of_price))).filter (fun d => d ≠ ""))) ∧
    (∀ w ∈ (wideFuelRowsForStation rows).2, ∀ f ∈ (wideFuelRowsForStation rows).1,
      f ≠ "date_of_price" →
      (getField w f).getD "" =
        lastPriceSpec rows ((getField w "date_of_price").getD "") f) := by
  have hmem : ∀ f, f ∈ (wideFuelRowsForStation rows).1 ↔ (f ≠ "" ∧ ∃ r ∈ rows, r.fuel = f) := by
    intro f
    show f ∈ sortStrings _ ↔ _
    simp only [sortStrings]
    rw [(List.perm_insertionSort _ _).mem_iff, List.mem_filter, dedupFirst,
      mem_dedupFirstAux]
    simp only [List.mem_map, List.not_mem_nil, not_false_iff, and_true, decide_eq_true_eq]
    tauto
  have hgroup : ∀ d, (mapGet (groupBy (fun r => r.date_of_price) rows) d).getD [] =
      rows.filter (fun r => r.date_of_price = d) :=
    fun d => mapGet_groupBy (fun r => r.date_of_price) rows d
  have hdatefield : ∀ d,
      getField (wideRowForDate (wideFuelRowsForStation rows).1
        (groupBy (fun r => r.date_of_price) rows) d) "date_of_price" = some d := by
    intro d
    rw [wideRowForDate, getField_price_fold]
    have hfilter : (((mapGet (groupBy (fun r => r.date_of_price) rows) d).getD []).filter
        (fun r => r.fuel = "date_of_price")) = [] := by
      rw [hgroup, List.filter_eq_nil_iff]
      intro r hr hcontra
      simp only [decide_eq_true_eq] at hcontra
      exact hcol ((hmem "date_of_price").mpr
        ⟨by decide, r, (List.mem_filter.mp hr).1, hcontra⟩)
    rw [hfilter]
    simp only [List.getLast?_nil]
    rw [getField_const_fold, if_neg hcol]
    simp [getField]
  have hout : (wideFuelRowsForStation rows).2 =
      (sortStrings (((groupBy (fun r => r.date_of_price) rows).map Prod.fst).filter
        (fun d => d ≠ ""))).map
        (wideRowForDate (wideFuelRowsForStation rows).1
          (groupBy (fun r => r.date_of_price) rows)) := rfl
  refine ⟨⟨?_, ?_, hmem⟩, ?_, ?_⟩
  · exact (List.perm_insertionSort _ _).symm.nodup
      ((nodup_dedupFirstAux (rows.map (fun r => r.fuel)) []).filter _)
  · exact @List.sorted_insertionSort String (fun a b => strLe a b = true) _
      ⟨fun a b => charListLe_total a.toList b.toList⟩
      ⟨fun a b c => charListLe_trans a.toList b.toList c.toList⟩ _
  · rw [hout, List.map_map]
    have hcongr : List.map ((fun w => (getField w "date_of_price").getD "") ∘
        wideRowForDate (wideFuelRowsForStation rows).1 (groupBy (fun r => r.date_of_price) rows))
        (sortStrings (((groupBy (fun r => r.date_of_price) rows).map Prod.fst).filter
          (fun d => d ≠ ""))) =
        List.map id (sortStrings (((groupBy (fun r => r.date_of_price) rows).map Prod.fst).filter
          (fun d => d ≠ ""))) :=
      List.map_congr_left (fun d _ => by
        simp only [Function.comp_apply, hdatefield d, Option.getD_some, id_eq])
    rw [hcongr, List.map_id, groupBy_keys]
  · intro w hw f hf hfdate
    rw [hout] at hw
    obtain ⟨d, hd, rfl⟩ := List.mem_map.mp hw
    rw [hdatefield d]
    simp only [Option.getD_some]
    rw [wideRowForDate, getField_price_fold]
    cases hlast : (((mapGet (groupBy (fun r => r.date_of_price) rows) d).getD []).filter
        (fun r => r.fuel = f)).getLast? with
    | some r =>
      simp only [Option.getD_some]
      rw [lastPriceSpec]
      rw [hgroup] at hlast
      rw [hlast]
    | none =>
      rw [getField_const_fold, if_pos hf]
      simp only [Option.getD_some]
      rw [lastPriceSpec]
      rw [hgroup] at hlast
      rw [hlast]

-- Counterexample to claim C8 as stated: the empty string is a distinct
-- dateOfPrice value of the input, yet the pivot has no row for it.
theorem wide_pivot_counterexample :
    (wideFuelRowsForStation [emptyDateRow]).2 = [] ∧
    dedupFirst ([emptyDateRow].map (fun r => r.date_of_price)) = [""] ∧
    (wideFuelRowsForStation [emptyDateRow]).1 = ["diesel"] ∧
    emptyDateRow.price = "1.50" := by
  decide

/- C8 witness: the worked example of the specification. -/

theorem wide_pivot_spec_witness :
    ("date_of_price" ∉ (wideFuelRowsForStation exampleRows).1) ∧
    (((wideFuelRowsForStation exampleRows).1.Nodup ∧
      List.Sorted (fun a b => strLe a b = true) (wideFuelRowsForStation exampleRows).1 ∧
      (∀ f, f ∈ (wideFuelRowsForStation exampleRows).1 ↔
        (f ≠ "" ∧ ∃ r ∈ exampleRows, r.fuel = f))) ∧
     ((wideFuelRowsForStation exampleRows).2.map
        (fun w => (getField w "date_of_price").getD "") =
       sortStrings ((dedupFirst (exampleRows.map (fun r => r.date_of_price))).filter
         (fun d => d ≠ ""))) ∧
     (∀ w ∈ (wideFuelRowsForStation exampleRows).2,
       ∀ f ∈ (wideFuelRowsForStation exampleRows).1,
       f ≠ "date_of_price" →
       (getField w f).getD "" =
         lastPriceSpec exampleRows ((getField w "date_of_price").getD "") f)) :=
  ⟨by decide, wide_pivot_spec exampleRows (by decide)⟩

/-- Claim C9: `csvEscape` wraps a field in double quotes and doubles its inner double quotes exactly when the field contains a comma, a double quote, a carriage return or a newline, returning it unchanged otherwise (with the two worked examples of the specification), and `rowsToCsv` joins the header row and one line per data row with CRLF as the record separator, emitting a trailing CRLF after the final row. -/
theorem csv_formatting (s : String) (rows : List (String → Option String)) (columns : List String) :
    (csvEscape (some s) =
      if ∃ c ∈ s.toList, c = ',' ∨ c = '"' ∨ c = '\r' ∨ c = '\n' then
        "\"" ++ String.mk (doubleQuotes s.toList) ++ "\""
      else s) ∧
    csvEscape (some "1,23") = "\"1,23\"" ∧
    csvEscape (some "He said \"hi\"") = "\"He said \"\"hi\"\"\"" ∧
    rowsToCsv rows columns =
      String.intercalate "\r\n"
        ((String.intercalate "," (columns.map (fun c => csvEscape (some c)))) ::
          rows.map (fun row => String.intercalate "," (columns.map (fun c => csvEscape (row c))))) ++
        "\r\n" := by
  refine ⟨?_, by decide, by decide, ?_⟩
  · by_cases h : ∃ c ∈ s.toList, c = ',' ∨ c = '"' ∨ c = '\r' ∨ c = '\n'
    · rw [if_pos h]
      have hq : csvNeedsQuote s = true := (csvNeedsQuote_iff s).mpr h
      simp [csvEscape, hq]
    · rw [if_neg h]
      have hq : ¬ csvNeedsQuote s = true := fun hh => h ((csvNeedsQuote_iff s).mp hh)
      rw [Bool.not_eq_true] at hq
      simp [csvEscape, hq]
  · simp only [rowsToCsv, foldl_push]
    rfl

/-- Claim C10: `describeBytes` applied to the empty byte sequence returns the binary descriptor, because `looksLikeText` rejects a zero-length sample; hence a payload that decodes to zero bytes is never classified as text, XML or CSV. -/
theorem describeBytes_empty_is_binary :
    describeBytes [] = ⟨"bin", "application/octet-stream", false⟩ ∧
    looksLikeText [] = false ∧
    (describeBytes []).ext ≠ "xml" ∧ (describeBytes []).ext ≠ "csv" ∧
    (describeBytes []).ext ≠ "txt" ∧ (describeBytes []).isText = false := by
  decide
